import Mathlib

/-!
Verification of the core structural operations of the JavaScriptUtilities
repository (src/dist/Objects.js): `get`, `compactObject`, `unflattenObject`,
`walkThrough` and `stringifyCircularJSON`.

The JavaScript source is shallowly embedded:
* JSON-like values are a tagged sum (`Scalar`, `Tree`); mapping fields are
  association lists in insertion order.  JavaScript's own-property enumeration
  reorders integer-like keys first; that reordering is not modelled (no
  property below depends on enumeration order of integer-like mapping keys).
* Prototype-inherited properties (`toString`, `length`, `__proto__`, ...) are
  not modelled: property reads see own properties only, as all claims stay
  inside the JSON data model.
* Fallible evaluation (a thrown TypeError) is `Option.none`.
* Machine numbers are `Int` (the claims use only small integers; float
  behaviour such as NaN payloads or -0 never arises in them).
-/

namespace JSU

/-- JSON scalar values: string, number, boolean, null. -/
inductive Scalar where
  | null : Scalar
  | bool (b : Bool) : Scalar
  | num (n : Int) : Scalar
  | str (s : String) : Scalar
deriving Repr, DecidableEq

/-- A JSON-like tree: a scalar, an ordered sequence, or a keyed mapping
(fields kept in insertion order). -/
inductive Tree where
  | scalar (s : Scalar) : Tree
  | arr (es : List Tree) : Tree
  | obj (fs : List (String × Tree)) : Tree
deriving Repr

/-- JavaScript truthiness of a scalar: `null`, `false`, `0` and `""` are
falsy, everything else truthy. -/
def Scalar.truthy : Scalar → Bool
  | .null => false
  | .bool b => b
  | .num n => n ≠ 0
  | .str s => s ≠ ""

/-- JavaScript truthiness of a tree value: containers are always truthy. -/
def Tree.truthy : Tree → Bool
  | .scalar s => s.truthy
  | .arr _ => true
  | .obj _ => true

/-- JavaScript `typeof v === 'object'`: true for arrays, plain objects and
`null`. -/
def Tree.typeofObject : Tree → Bool
  | .scalar .null => true
  | .scalar _ => false
  | .arr _ => true
  | .obj _ => true

/-- A value that is a Sequence or a Mapping (a container, excluding null). -/
def Tree.isContainer : Tree → Bool
  | .arr _ => true
  | .obj _ => true
  | .scalar _ => false

/-- Numeric value of a digit string (helper for array index handling). -/
def natOfDigits (s : String) : Nat :=
  s.toList.foldl (fun acc c => acc * 10 + (c.toNat - '0'.toNat)) 0

/-- Canonical JavaScript array-index string: decimal digits with no leading
zero (except "0" itself), value below 2^32 - 1.  Exactly these strings address
array elements; all others are ordinary property keys. -/
def isCanonicalIndex (s : String) : Bool :=
  s ≠ "" && s.toList.all Char.isDigit &&
    (s = "0" || s.toList.head? ≠ some '0') &&
    natOfDigits s < 4294967295

/-- First-match lookup in an association list (JavaScript own-property read;
keys are unique by construction). -/
def lookupField {α : Type} : List (String × α) → String → Option α
  | [], _ => none
  | (k', v) :: t, k => if k' = k then some v else lookupField t k

/-- The replacement `s.replace(/\[([^\[\]]*)\]/g, '.$1.')` from the source's `get`:
each bracketed run of non-bracket characters followed by a closing bracket
becomes a dot-wrapped segment; an unmatched opening bracket is kept verbatim
and scanning resumes on the next character, as the regex engine does.
-/
def replaceBracketsAux : Nat → List Char → List Char
  | 0, l => l
  | _, [] => []
  | fuel + 1, '[' :: rest =>
      (match rest.dropWhile (fun c => c ≠ '[' && c ≠ ']') with
      | ']' :: rest' =>
          '.' :: rest.takeWhile (fun c => c ≠ '[' && c ≠ ']') ++
            '.' :: replaceBracketsAux fuel rest'
      | _ => '[' :: replaceBracketsAux fuel rest)
  | fuel + 1, c :: rest => c :: replaceBracketsAux fuel rest

/-- Bracket replacement over a whole character list.  Every recursive step of
the scanner moves to a strictly shorter list, so the list's length is always
enough fuel; the fuel only makes the recursion structural. -/
def replaceBrackets (l : List Char) : List Char :=
  replaceBracketsAux l.length l

/-- JavaScript `String.prototype.split('.')`: splits on every dot, keeping
empty segments (`''.split('.')` is `['']`). -/
def splitDotAux : List Char → List Char → List (List Char)
  | [], acc => [acc.reverse]
  | '.' :: t, acc => acc.reverse :: splitDotAux t []
  | c :: t, acc => splitDotAux t (c :: acc)

/-- Split a string on `.` as JavaScript's `split('.')` does. -/
def splitDots (s : String) : List String :=
  (splitDotAux s.toList []).map String.mk

/-- Selector parsing in `get`: bracket replacement, split on `.`, drop empty
segments. -/
def parseSelector (s : String) : List String :=
  (splitDots (String.mk (replaceBrackets s.toList))).filter (fun t => t ≠ "")

/-- JavaScript property read `t[cur]` as used by `get` on a truthy value:
mapping key lookup, array index lookup, string index lookup (one-character
string); any other access is `undefined` (`none`).
-/
def Tree.access : Tree → String → Option Tree
  | .obj fs, k => lookupField fs k
  | .arr es, k =>
      if isCanonicalIndex k then es.get? (natOfDigits k) else none
  | .scalar (.str s), k =>
      if isCanonicalIndex k && natOfDigits k < s.length then
        some (.scalar (.str (String.mk [s.toList.getD (natOfDigits k) ' '])))
      else none
  | .scalar _, _ => none

/-- One step of the walk in `get`: `prev && prev[cur]`.  A falsy current value
(including `undefined`, i.e. `none`) is returned unchanged; a truthy value is
indexed. -/
def getStep (prev : Option Tree) (cur : String) : Option Tree :=
  match prev with
  | none => none
  | some t => if t.truthy then t.access cur else some t

/-- Resolution of one selector against a root tree (the inner `reduce` of
`get`, starting from the root). -/
def resolveSelector (from' : Tree) (sel : String) : Option Tree :=
  (parseSelector sel).foldl getStep (some from')

/-- The source's `get`: one result per selector, in selector order. -/
def get (from' : Tree) (selectors : List String) : List (Option Tree) :=
  selectors.map (resolveSelector from')

/-- Is a `get` result the claim's "undefined/absence" (JS `undefined` or
`null`)? -/
def isAbsentOrNull : Option Tree → Bool
  | none => true
  | some (.scalar .null) => true
  | some _ => false

lemma parseSelector_bracket : parseSelector "target[2].a" = ["target", "2", "a"] := by rfl

/-- The worked tree of the spec's resolver example:
`{selector:{to:{val:'val to select'}}, target:[1,2,{a:'test'}]}`. -/
def resolverExampleTree : Tree :=
  .obj [("selector", .obj [("to", .obj [("val", .scalar (.str "val to select"))])]),
        ("target", .arr [.scalar (.num 1), .scalar (.num 2),
                         .obj [("a", .scalar (.str "test"))]])]

/-- Claim C3 counterexample: for the tree `{a: 0}` and selector `"a.b"`, the
falsy intermediate value `0` is encountered before the last segment, and `get`
returns `0` itself — a defined, non-null value — not `undefined`/absence as the
claim states. -/
theorem C3_counterexample :
    get (Tree.obj [("a", .scalar (.num 0))]) ["a.b"] =
      [some (Tree.scalar (.num 0))] ∧
    isAbsentOrNull (some (Tree.scalar (.num 0))) = false := by
  exact ⟨rfl, rfl⟩

/-- Claim C3 as amended: the walk of `get` never raises an error and
short-circuits at the first falsy intermediate value, but the selector's
result is then that falsy value itself (`null` stays `null`, a missing key
stays `undefined`, and falsy scalars such as `0`, `false` or `""` are returned
as-is rather than as `undefined`); a truthy value that does not contain the
segment yields `undefined`.  The resolver example of the spec also holds. -/
theorem C3_get_shortcircuit (t : Tree) (h : t.truthy = false) :
    (∀ segs : List String, segs.foldl getStep (some t) = some t) ∧
    (∀ segs : List String, segs.foldl getStep none = none) ∧
    (∀ (root : Tree) (sel : String),
      get root [sel] = [(parseSelector sel).foldl getStep (some root)]) ∧
    (∀ (u : Tree) (c : String), u.truthy = true → u.access c = none →
      getStep (some u) c = none) ∧
    get resolverExampleTree ["selector.to.val", "target[0]", "target[2].a"] =
      [some (.scalar (.str "val to select")), some (.scalar (.num 1)),
       some (.scalar (.str "test"))] := by
  refine ⟨?_, ?_, ?_, ?_, rfl⟩
  · intro segs
    induction segs with
    | nil => rfl
    | cons c rest ih => simpa [getStep, h] using ih
  · intro segs
    induction segs with
    | nil => rfl
    | cons c rest ih => simpa [getStep] using ih
  · intro root sel
    rfl
  · intro u c hu ha
    simp [getStep, hu, ha]

/-- Witness for `C3_get_shortcircuit` at the concrete falsy value `0`. -/
theorem C3_get_shortcircuit_witness :
    ["b"].foldl getStep (some (Tree.scalar (.num 0))) =
      some (Tree.scalar (.num 0)) :=
  (C3_get_shortcircuit (Tree.scalar (.num 0)) (by rfl)).1 ["b"]

/-!  Falsy pruner (`compactObject`).  The source filters falsy array elements
(`val.filter(Boolean)`), iterates `Object.keys`, keeps truthy values, and
recurses into every kept value with `typeof value === 'object'` — which, the
falsy check having already excluded `null`, means exactly the containers. -/

mutual

/-- The source's `compactObject`.  On a primitive (out of the declared
`Mapping|Sequence` contract) `Object.keys` yields no own enumerable keys and
the empty-object accumulator is returned. -/
def compactObject : Tree → Tree
  | .arr es => .arr (compactElems es)
  | .obj fs => .obj (compactFields fs)
  | .scalar _ => .obj []

/-- Truthy-filtered, recursively compacted sequence elements. -/
def compactElems : List Tree → List Tree
  | [] => []
  | e :: t =>
      if e.truthy then
        (if e.isContainer then compactObject e else e) :: compactElems t
      else compactElems t

/-- Truthy-filtered, recursively compacted mapping fields. -/
def compactFields : List (String × Tree) → List (String × Tree)
  | [] => []
  | (k, v) :: t =>
      if v.truthy then
        (k, if v.isContainer then compactObject v else v) :: compactFields t
      else compactFields t

end

/-- Top-level kind of a tree value (Scalar / Sequence / Mapping). -/
inductive TreeKind where
  | scalarK : TreeKind
  | seqK : TreeKind
  | mapK : TreeKind
deriving Repr, DecidableEq

/-- Kind of a tree value. -/
def Tree.kind : Tree → TreeKind
  | .scalar _ => .scalarK
  | .arr _ => .seqK
  | .obj _ => .mapK

mutual

/-- A tree with no falsy member anywhere: every Sequence element and Mapping
value is truthy, recursively. -/
def Tree.compacted : Tree → Bool
  | .scalar _ => true
  | .arr es => elemsCompacted es
  | .obj fs => fieldsCompacted fs

/-- All elements truthy and recursively compacted. -/
def elemsCompacted : List Tree → Bool
  | [] => true
  | e :: t => e.truthy && e.compacted && elemsCompacted t

/-- All field values truthy and recursively compacted. -/
def fieldsCompacted : List (String × Tree) → Bool
  | [] => true
  | (_, v) :: t => v.truthy && v.compacted && fieldsCompacted t

end

lemma truthy_compactObject (t : Tree) : (compactObject t).truthy = true := by
  cases t <;> simp [compactObject, Tree.truthy]

lemma isContainer_compactObject (t : Tree) :
    (compactObject t).isContainer = true := by
  cases t <;> simp [compactObject, Tree.isContainer]

lemma compact_idem_aux : ∀ n : Nat,
    (∀ t : Tree, sizeOf t ≤ n →
      compactObject (compactObject t) = compactObject t) ∧
    (∀ es : List Tree, sizeOf es ≤ n →
      compactElems (compactElems es) = compactElems es) ∧
    (∀ fs : List (String × Tree), sizeOf fs ≤ n →
      compactFields (compactFields fs) = compactFields fs) := by
  intro n
  induction n using Nat.strong_induction_on with
  | _ n ih =>
    refine ⟨?_, ?_, ?_⟩
    · intro t ht
      match t with
      | .scalar s => simp [compactObject, compactFields]
      | .arr es =>
          have hes : sizeOf es < n := by simp at ht; omega
          have h2 := (ih (sizeOf es) hes).2.1 es le_rfl
          simp [compactObject, h2]
      | .obj fs =>
          have hfs : sizeOf fs < n := by simp at ht; omega
          have h2 := (ih (sizeOf fs) hfs).2.2 fs le_rfl
          simp [compactObject, h2]
    · intro es hes
      match es with
      | [] => rfl
      | e :: t =>
          have hst : sizeOf t < n := by simp at hes; omega
          have hse : sizeOf e < n := by simp at hes; omega
          have iht := (ih (sizeOf t) hst).2.1 t le_rfl
          by_cases htr : e.truthy = true
          · by_cases hc : e.isContainer = true
            · have hobj := (ih (sizeOf e) hse).1 e le_rfl
              simp [compactElems, htr, hc, truthy_compactObject,
                isContainer_compactObject, hobj, iht]
            · simp [compactElems, htr, hc, iht]
          · simp [compactElems, htr, iht]
    · intro fs hfs
      match fs with
      | [] => rfl
      | (k, v) :: t =>
          have hst : sizeOf t < n := by simp at hfs; omega
          have hsv : sizeOf v < n := by simp at hfs; omega
          have iht := (ih (sizeOf t) hst).2.2 t le_rfl
          by_cases htr : v.truthy = true
          · by_cases hc : v.isContainer = true
            · have hobj := (ih (sizeOf v) hsv).1 v le_rfl
              simp [compactFields, htr, hc, truthy_compactObject,
                isContainer_compactObject, hobj, iht]
            · simp [compactFields, htr, hc, iht]
          · simp [compactFields, htr, iht]

lemma compact_compacted_aux : ∀ n : Nat,
    (∀ t : Tree, sizeOf t ≤ n → (compactObject t).compacted = true) ∧
    (∀ es : List Tree, sizeOf es ≤ n →
      elemsCompacted (compactElems es) = true) ∧
    (∀ fs : List (String × Tree), sizeOf fs ≤ n →
      fieldsCompacted (compactFields fs) = true) := by
  intro n
  induction n using Nat.strong_induction_on with
  | _ n ih =>
    refine ⟨?_, ?_, ?_⟩
    · intro t ht
      match t with
      | .scalar s => simp [compactObject, Tree.compacted, compactFields,
          fieldsCompacted]
      | .arr es =>
          have hes : sizeOf es < n := by simp at ht; omega
          have h2 := (ih (sizeOf es) hes).2.1 es le_rfl
          simp [compactObject, Tree.compacted, h2]
      | .obj fs =>
          have hfs : sizeOf fs < n := by simp at ht; omega
          have h2 := (ih (sizeOf fs) hfs).2.2 fs le_rfl
          simp [compactObject, Tree.compacted, h2]
    · intro es hes
      match es with
      | [] => rfl
      | e :: t =>
          have hst : sizeOf t < n := by simp at hes; omega
          have hse : sizeOf e < n := by simp at hes; omega
          have iht := (ih (sizeOf t) hst).2.1 t le_rfl
          by_cases htr : e.truthy = true
          · by_cases hc : e.isContainer = true
            · have hcpt := (ih (sizeOf e) hse).1 e le_rfl
              simp [compactElems, htr, hc, elemsCompacted,
                truthy_compactObject, hcpt, iht]
            · have hcpt : e.compacted = true := by
                match e, hc with
                | .scalar s, _ => simp [Tree.compacted]
              simp [compactElems, htr, hc, elemsCompacted, hcpt, iht]
          · simp [compactElems, htr, iht]
    · intro fs hfs
      match fs with
      | [] => rfl
      | (k, v) :: t =>
          have hst : sizeOf t < n := by simp at hfs; omega
          have hsv : sizeOf v < n := by simp at hfs; omega
          have iht := (ih (sizeOf t) hst).2.2 t le_rfl
          by_cases htr : v.truthy = true
          · by_cases hc : v.isContainer = true
            · have hcpt := (ih (sizeOf v) hsv).1 v le_rfl
              simp [compactFields, htr, hc, fieldsCompacted,
                truthy_compactObject, hcpt, iht]
            · have hcpt : v.compacted = true := by
                match v, hc with
                | .scalar s, _ => simp [Tree.compacted]
              simp [compactFields, htr, hc, fieldsCompacted, hcpt, iht]
          · simp [compactFields, htr, iht]

/-- Claim C7: `compactObject` is idempotent on every Mapping or Sequence
input. -/
theorem C7_compact_idempotent (t : Tree) (h : t.isContainer = true) :
    compactObject (compactObject t) = compactObject t :=
  (compact_idem_aux (sizeOf t)).1 t le_rfl

/-- Witness for `C7_compact_idempotent` at the spec's pruner example tree. -/
theorem C7_compact_idempotent_witness :
    Tree.isContainer (.obj [("a", .scalar .null), ("h", .arr [.scalar (.num 1)])]) = true ∧
    compactObject (compactObject
        (.obj [("a", .scalar .null), ("h", .arr [.scalar (.num 1)])])) =
      compactObject (.obj [("a", .scalar .null), ("h", .arr [.scalar (.num 1)])]) :=
  ⟨rfl, C7_compact_idempotent _ rfl⟩

/-- Claim C8: on a Mapping or Sequence input, `compactObject` preserves the
top-level kind, removes every falsy value recursively (its output has no falsy
member anywhere), keeps every container member as its compacted version (so a
non-empty container that prunes down to empty is still included, as an empty
container), and the spec's example evaluates as stated:
`compactObject({a:null,b:false,c:true,h:[null,false,1]}) = {c:true,h:[1]}`. -/
theorem C8_compact_spec (t : Tree) (h : t.isContainer = true) :
    (compactObject t).kind = t.kind ∧
    (compactObject t).compacted = true ∧
    (∀ (fs : List (String × Tree)) (k : String) (v : Tree),
        (k, v) ∈ fs → v.isContainer = true →
        (k, compactObject v) ∈ compactFields fs) ∧
    (∀ (es : List Tree) (e : Tree), e ∈ es → e.isContainer = true →
        compactObject e ∈ compactElems es) ∧
    compactObject (.obj [("a", .scalar .null), ("b", .scalar (.bool false)),
        ("c", .scalar (.bool true)),
        ("h", .arr [.scalar .null, .scalar (.bool false), .scalar (.num 1)])]) =
      .obj [("c", .scalar (.bool true)), ("h", .arr [.scalar (.num 1)])] := by
  refine ⟨?_, (compact_compacted_aux (sizeOf t)).1 t le_rfl, ?_, ?_, ?_⟩
  · match t, h with
    | .arr es, _ => simp [compactObject, Tree.kind]
    | .obj fs, _ => simp [compactObject, Tree.kind]
  · intro fs k v hmem hv
    induction fs with
    | nil => simp at hmem
    | cons hd tl ih =>
        match hd with
        | (k', v') =>
            rcases List.mem_cons.mp hmem with heq | htl
            · cases heq
              have htr : v.truthy = true := by
                match v, hv with
                | .arr es, _ => rfl
                | .obj fs', _ => rfl
              simp [compactFields, htr, hv]
            · have := ih htl
              by_cases htr : v'.truthy = true
              · simp [compactFields, htr, this]
              · simp [compactFields, htr, this]
  · intro es e hmem he
    induction es with
    | nil => simp at hmem
    | cons hd tl ih =>
        rcases List.mem_cons.mp hmem with heq | htl
        · cases heq
          have htr : e.truthy = true := by
            match e, he with
            | .arr es', _ => rfl
            | .obj fs', _ => rfl
          simp [compactElems, htr, he]
        · have := ih htl
          by_cases htr : hd.truthy = true
          · simp [compactElems, htr, this]
          · simp [compactElems, htr, this]
  · simp [compactObject, compactFields, compactElems, Tree.truthy,
      Scalar.truthy, Tree.isContainer]

/-- Witness for `C8_compact_spec` at the spec's pruner example tree. -/
theorem C8_compact_spec_witness :
    Tree.isContainer (.arr [.scalar .null, .scalar (.num 2)]) = true ∧
    (compactObject (.arr [.scalar .null, .scalar (.num 2)])).kind =
      Tree.kind (.arr [.scalar .null, .scalar (.num 2)]) :=
  ⟨rfl, (C8_compact_spec (.arr [.scalar .null, .scalar (.num 2)]) rfl).1⟩

/-!  Tree walker (`walkThrough`).  The source recurses whenever
`typeof x[key] === 'object'` — true for containers *and for `null`* — and
calls `Object.keys(x)` on each recursed value.  `Object.keys(null)` throws a
TypeError, embedded as `none`. -/

/-- Decimal digit character. -/
def digitChar (n : Nat) : Char := Char.ofNat ('0'.toNat + n)

/-- Decimal rendering of a natural number (fuel-structural; `n + 1` fuel
always suffices since the value shrinks ten-fold each step). -/
def natToChars : Nat → Nat → List Char
  | 0, _ => []
  | fuel + 1, n =>
      if n < 10 then [digitChar n] else natToChars fuel (n / 10) ++ [digitChar (n % 10)]

/-- Decimal string of a natural number, as JavaScript renders array indices
and numbers. -/
def natToStr (n : Nat) : String := String.mk (natToChars (n + 1) n)

/-- The scalar payload of a non-container value (only applied where
`typeofObject` is false, hence never to `null`). -/
def Tree.asScalar : Tree → Scalar
  | .scalar s => s
  | _ => .null

mutual

/-- The source's generator `walk`: enumerate `Object.keys`, recurse on
`typeof === 'object'` values, yield `(path, value)` for the rest.  A walk
entering `null` is `Object.keys(null)`, a thrown TypeError (`none`).  On other
primitives `Object.keys` yields nothing (string inputs sit outside the tree
contract, see the header note). -/
def walkTree : Tree → List String → Option (List (List String × Scalar))
  | .scalar .null, _ => none
  | .scalar _, _ => some []
  | .arr es, prev => walkElems es 0 prev
  | .obj fs, prev => walkFields fs prev

/-- Walk of the elements of a Sequence: indices become decimal string
segments. -/
def walkElems : List Tree → Nat → List String → Option (List (List String × Scalar))
  | [], _, _ => some []
  | e :: t, i, prev =>
      (if e.typeofObject then walkTree e (prev ++ [natToStr i])
       else some [(prev ++ [natToStr i], e.asScalar)]).bind fun hd =>
        (walkElems t (i + 1) prev).map fun tl => hd ++ tl

/-- Walk of the fields of a Mapping, in key order. -/
def walkFields : List (String × Tree) → List String → Option (List (List String × Scalar))
  | [], _ => some []
  | (k, v) :: t, prev =>
      (if v.typeofObject then walkTree v (prev ++ [k])
       else some [(prev ++ [k], v.asScalar)]).bind fun hd =>
        (walkFields t prev).map fun tl => hd ++ tl

end

/-- The source's `walkThrough`, with the lazy generator materialised as the
list of pairs it yields (the traversal is finite on trees; `none` embeds a
thrown TypeError). -/
def walkThrough (t : Tree) : Option (List (List String × Scalar)) :=
  walkTree t []

/-- The worked tree of the spec's walker example:
`{a:10,b:20,c:{d:10,e:20,f:[30,40]},g:[{h:10,i:20},{j:30},40]}`. -/
def walkerExampleTree : Tree :=
  .obj [("a", .scalar (.num 10)), ("b", .scalar (.num 20)),
        ("c", .obj [("d", .scalar (.num 10)), ("e", .scalar (.num 20)),
                    ("f", .arr [.scalar (.num 30), .scalar (.num 40)])]),
        ("g", .arr [.obj [("h", .scalar (.num 10)), ("i", .scalar (.num 20))],
                    .obj [("j", .scalar (.num 30))],
                    .scalar (.num 40)])]

/-- Claim C1: the code does NOT treat a null member as a Scalar leaf.  Since
`typeof null === 'object'`, the walker recurses into the null value and
`Object.keys(null)` throws a TypeError: on the tree `{a: null}` the traversal
crashes instead of emitting `(["a"], null)`.  On null-free trees the walker
behaves as specified, shown here on the spec's worked example. -/
theorem C1_walkThrough_null_crashes :
    walkThrough (.obj [("a", .scalar .null)]) = none ∧
    walkThrough walkerExampleTree = some
      [(["a"], .num 10), (["b"], .num 20),
       (["c", "d"], .num 10), (["c", "e"], .num 20),
       (["c", "f", "0"], .num 30), (["c", "f", "1"], .num 40),
       (["g", "0", "h"], .num 10), (["g", "0", "i"], .num 20),
       (["g", "1", "j"], .num 30), (["g", "2"], .num 40)] := by
  constructor
  · simp [walkThrough, walkTree, walkFields, Tree.typeofObject]
  · simp [walkThrough, walkerExampleTree, walkTree, walkFields, walkElems,
      Tree.typeofObject, Tree.asScalar, natToStr, natToChars, digitChar]

/-!  Path unflattener (`unflattenObject`).  The container kind created at a
segment is decided by `isNaN(Number(keys[i+1]))`, so we embed JavaScript's
string-to-number coercion (`Number(s)` is NaN exactly when the trimmed string
is neither empty nor a StringNumericLiteral).  The accumulator is mutated in
place in the source; here the mutation is threaded functionally.  Since the
module runs in strict mode, assigning a property on a primitive throws a
TypeError (`none`). -/

/-- JavaScript whitespace trimmed by string-to-number coercion (ASCII forms;
exotic unicode spaces are not modelled — no claim uses them). -/
def isJsWhite (c : Char) : Bool :=
  c = ' ' || c = '\t' || c = '\n' || c = '\r' || c = '\x0b' || c = '\x0c'

/-- Hexadecimal digit. -/
def isHexDigit (c : Char) : Bool :=
  c.isDigit || ('a' ≤ c && c ≤ 'f') || ('A' ≤ c && c ≤ 'F')

/-- Exponent part of a decimal literal: empty, or `e|E`, optional sign, at
least one digit, consuming the rest. -/
def expTail : List Char → Bool
  | [] => true
  | c :: t =>
      (c = 'e' || c = 'E') &&
      (match t with
       | [] => false
       | s :: u =>
           if s = '+' || s = '-' then u ≠ [] && u.all Char.isDigit
           else t ≠ [] && t.all Char.isDigit)

/-- Unsigned decimal numeric literal: `digits [. digits] [exp]` or
`. digits [exp]`. -/
def decimalLit (cs : List Char) : Bool :=
  let ip := cs.takeWhile Char.isDigit
  let r1 := cs.dropWhile Char.isDigit
  match r1 with
  | '.' :: t =>
      let fp := t.takeWhile Char.isDigit
      let r2 := t.dropWhile Char.isDigit
      (ip ≠ [] || fp ≠ []) && expTail r2
  | _ => ip ≠ [] && expTail r1

/-- Optionally signed decimal literal or Infinity. -/
def decSigned : List Char → Bool
  | '+' :: t => t = "Infinity".toList || decimalLit t
  | '-' :: t => t = "Infinity".toList || decimalLit t
  | t => t = "Infinity".toList || decimalLit t

/-- ECMAScript StringNumericLiteral test on a trimmed character list: the
empty string coerces to 0; unsigned hex/octal/binary literals and signed
decimal/Infinity literals coerce to numbers; everything else is NaN. -/
def strNumericLit : List Char → Bool
  | [] => true
  | '0' :: b :: t =>
      if b = 'x' || b = 'X' then t ≠ [] && t.all isHexDigit
      else if b = 'o' || b = 'O' then
        t ≠ [] && t.all (fun c => '0' ≤ c && c ≤ '7')
      else if b = 'b' || b = 'B' then
        t ≠ [] && t.all (fun c => c = '0' || c = '1')
      else decSigned ('0' :: b :: t)
  | cs => decSigned cs

/-- JavaScript `isNaN(Number(s))` for a string `s`. -/
def jsNumberIsNaN (s : String) : Bool :=
  !(strNumericLit (((s.toList.dropWhile isJsWhite).reverse.dropWhile isJsWhite).reverse))

/-- The spec's notion of a *numeric segment* (§3): a non-negative base-10
integer with no leading zeros (except "0" itself).  Stated from the spec's
words to compare against the code's `isNaN(Number(next))` rule. -/
def specNumericSegment (s : String) : Bool :=
  s ≠ "" && s.toList.all Char.isDigit && (s = "0" || s.toList.head? ≠ some '0')

/-- The value universe of the unflattener: a leaf (the attached flat value),
a plain object, or an array.  A JavaScript array carries its element slots
(`none` is a hole of a sparse array) and, separately, its non-index string
properties, which the source can create by assigning a non-index key on an
array.  The array's special `length` property is not modelled (no claim
writes `length` onto an array). -/
inductive UVal where
  | leaf (s : Scalar) : UVal
  | uobj (fs : List (String × UVal)) : UVal
  | uarr (es : List (Option UVal)) (ps : List (String × UVal)) : UVal
deriving Repr

/-- JavaScript truthiness: containers are truthy, leaves by their scalar. -/
def UVal.truthy : UVal → Bool
  | .leaf s => s.truthy
  | .uobj _ => true
  | .uarr _ _ => true

/-- Is this value a container (array or object)? -/
def UVal.isUContainer : UVal → Bool
  | .leaf _ => false
  | .uobj _ => true
  | .uarr _ _ => true

/-- Is this value an array (a Sequence)? -/
def UVal.isSeq : UVal → Bool
  | .uarr _ _ => true
  | _ => false

/-- Update-or-append on an association list: a JavaScript property write
keeps the key's original insertion position. -/
def setAssoc {α : Type} : List (String × α) → String → α → List (String × α)
  | [], k, v => [(k, v)]
  | (k', v') :: t, k, v =>
      if k' = k then (k, v) :: t else (k', v') :: setAssoc t k v

/-- Own-property read `cur[e]`: object key lookup; on arrays a canonical
index reads the element slot (a hole or out-of-range index is `undefined`)
and any other key reads the array's string properties.  Reads on primitives
yield `undefined` (string index properties are not modelled — no claim reads
into a string leaf). -/
def jsRead : UVal → String → Option UVal
  | .leaf _, _ => none
  | .uobj fs, k => lookupField fs k
  | .uarr es ps, k =>
      if isCanonicalIndex k then es.getD (natOfDigits k) none
      else lookupField ps k

/-- Own-property write `cur[e] = v` in strict mode: on objects and on array
string properties, update-or-append; on a canonical array index, set the
slot, extending with holes when the index is past the end (a sparse array);
on a primitive, a thrown TypeError (`none`). -/
def jsWrite : UVal → String → UVal → Option UVal
  | .leaf _, _, _ => none
  | .uobj fs, k, v => some (.uobj (setAssoc fs k v))
  | .uarr es ps, k, v =>
      if isCanonicalIndex k then
        (if natOfDigits k < es.length then
          some (.uarr (es.set (natOfDigits k) (some v)) ps)
        else
          some (.uarr (es ++ List.replicate (natOfDigits k - es.length) none
            ++ [some v]) ps))
      else some (.uarr es (setAssoc ps k v))

/-- The inner `reduce` of `unflattenObject` over one split key, threading the
in-place mutation functionally:
`acc[e] || (acc[e] = isNaN(Number(keys[i+1])) ? (last ? obj[k] : {}) : [])`.
A truthy existing value is reused as the next accumulator (no write — on the
last segment the leaf is then *not* attached); otherwise the branch decides
what to assign: at the last segment the flat value, at an intermediate
segment an empty object when the next segment coerces to NaN and an empty
array otherwise.
-/
def insertSegs : UVal → List String → Scalar → Option UVal
  | cur, [], _ => some cur
  | cur, [e], s0 =>
      (match jsRead cur e with
       | some v => if v.truthy then some cur else jsWrite cur e (.leaf s0)
       | none => jsWrite cur e (.leaf s0))
  | cur, e :: nxt :: rest, s0 =>
      (match jsRead cur e with
       | some v =>
           if v.truthy then (insertSegs v (nxt :: rest) s0).bind (jsWrite cur e)
           else
             (insertSegs (if jsNumberIsNaN nxt then .uobj [] else .uarr [] [])
               (nxt :: rest) s0).bind (jsWrite cur e)
       | none =>
           (insertSegs (if jsNumberIsNaN nxt then .uobj [] else .uarr [] [])
             (nxt :: rest) s0).bind (jsWrite cur e))

/-- The source's `unflattenObject` on a flat mapping given in key iteration
order: fold every key's split path into the accumulating root object.  A
thrown TypeError aborts the whole call (`none`). -/
def unflattenObject (flat : List (String × Scalar)) : Option UVal :=
  flat.foldl
    (fun acc kv => acc.bind (fun root => insertSegs root (splitDots kv.1) kv.2))
    (some (.uobj []))

/-- Claim C4 counterexample: the segment `"01"` is not numeric in the spec's
sense (leading zero), so the claim requires a Mapping at `a` for the input
`{'a.01.x': 1}` — but `Number('01')` is `1`, not NaN, so the code creates a
Sequence at `a` (an array that then receives `"01"` as a string property). -/
theorem C4_counterexample :
    specNumericSegment "01" = false ∧
    unflattenObject [("a.01.x", .num 1)] =
      some (.uobj [("a", .uarr [] [("01", .uobj [("x", .leaf (.num 1))])])]) ∧
    ((unflattenObject [("a.01.x", .num 1)]).bind
        (fun r => jsRead r "a")).map UVal.isSeq = some true := by
  exact ⟨rfl, rfl, rfl⟩

/-- Claim C4 as amended: the kind of the container created at an intermediate
segment is decided by the *next* segment through JavaScript number coercion —
a Sequence is created exactly when `Number(next)` is not NaN (which also holds
for segments such as `"-1"`, `"01"`, `"1e3"` or `""`), and a Mapping
otherwise; the example `unflattenObject({'a.b.0':8, d:3}) = {a:{b:[8]}, d:3}`
holds. -/
theorem C4_kind_rule (cur : UVal) (e nxt : String) (rest : List String)
    (s0 : Scalar) (h : jsRead cur e = none) :
    (jsNumberIsNaN nxt = false →
      insertSegs cur (e :: nxt :: rest) s0 =
        (insertSegs (.uarr [] []) (nxt :: rest) s0).bind (jsWrite cur e)) ∧
    (jsNumberIsNaN nxt = true →
      insertSegs cur (e :: nxt :: rest) s0 =
        (insertSegs (.uobj []) (nxt :: rest) s0).bind (jsWrite cur e)) ∧
    jsNumberIsNaN "-1" = false ∧ jsNumberIsNaN "01" = false ∧
    jsNumberIsNaN "1e3" = false ∧ jsNumberIsNaN "" = false ∧
    jsNumberIsNaN "b" = true ∧
    unflattenObject [("a.b.0", .num 8), ("d", .num 3)] =
      some (.uobj [("a", .uobj [("b", .uarr [some (.leaf (.num 8))] [])]),
                   ("d", .leaf (.num 3))]) := by
  refine ⟨?_, ?_, rfl, rfl, rfl, rfl, rfl, rfl⟩
  · intro hn
    simp [insertSegs, h, hn]
  · intro hn
    simp [insertSegs, h, hn]

/-- Witness for `C4_kind_rule`: on the empty root and segments
`["a", "0"]`, the next segment `"0"` coerces to a number, so an array is
created at `"a"`. -/
theorem C4_kind_rule_witness :
    insertSegs (.uobj []) ["a", "0"] (.num 1) =
      (insertSegs (.uarr [] []) ["0"] (.num 1)).bind (jsWrite (.uobj []) "a") :=
  (C4_kind_rule (.uobj []) "a" "0" [] (.num 1) rfl).1 rfl

/-- Claim C6: if a (necessarily truthy) container already exists at a
segment, it is reused as-is — the step equation descends into the existing
value `v` no matter what kind `v` has and what kind the next segment would
imply, and on a final segment the existing value is simply kept; containers
are always truthy so this covers every existing container; no error is raised
on conflicting kinds, as the spec's adversarial example
`{'a.0':1, 'a.b':2}` shows in both key orders. -/
theorem C6_first_writer_wins (cur v : UVal) (e nxt : String)
    (rest : List String) (s0 : Scalar)
    (h : jsRead cur e = some v) (hv : v.truthy = true) :
    insertSegs cur [e] s0 = some cur ∧
    insertSegs cur (e :: nxt :: rest) s0 =
      (insertSegs v (nxt :: rest) s0).bind (jsWrite cur e) ∧
    (∀ w : UVal, w.isUContainer = true → w.truthy = true) ∧
    unflattenObject [("a.0", .num 1), ("a.b", .num 2)] =
      some (.uobj [("a", .uarr [some (.leaf (.num 1))] [("b", .leaf (.num 2))])]) ∧
    unflattenObject [("a.b", .num 2), ("a.0", .num 1)] =
      some (.uobj [("a", .uobj [("b", .leaf (.num 2)), ("0", .leaf (.num 1))])]) := by
  refine ⟨?_, ?_, ?_, rfl, rfl⟩
  · simp [insertSegs, h, hv]
  · simp [insertSegs, h, hv]
  · intro w hw
    match w, hw with
    | .uobj fs, _ => rfl
    | .uarr es ps, _ => rfl

/-- Witness for `C6_first_writer_wins`: an array created by an earlier key is
reused for a mapping-like next segment. -/
theorem C6_first_writer_wins_witness :
    insertSegs (.uobj [("a", .uarr [some (.leaf (.num 1))] [])]) ["a"] (.num 7) =
      some (.uobj [("a", .uarr [some (.leaf (.num 1))] [])]) :=
  (C6_first_writer_wins (.uobj [("a", .uarr [some (.leaf (.num 1))] [])])
    (.uarr [some (.leaf (.num 1))] []) "a" "b" [] (.num 7) rfl rfl).1

lemma insertSegs_uobj_root (fs : List (String × UVal)) (segs : List String)
    (s0 : Scalar) (v : UVal) (h : insertSegs (.uobj fs) segs s0 = some v) :
    ∃ fs', v = .uobj fs' := by
  match segs with
  | [] =>
      simp [insertSegs] at h
      exact ⟨fs, h.symm⟩
  | [e] =>
      simp only [insertSegs] at h
      cases hr : jsRead (.uobj fs) e with
      | none =>
          rw [hr] at h
          simp [jsWrite] at h
          exact ⟨_, h.symm⟩
      | some w =>
          rw [hr] at h
          by_cases hw : w.truthy = true
          · simp [hw] at h
            exact ⟨fs, h.symm⟩
          · simp [hw, jsWrite] at h
            exact ⟨_, h.symm⟩
  | e :: nxt :: rest =>
      simp only [insertSegs] at h
      cases hr : jsRead (.uobj fs) e with
      | none =>
          rw [hr] at h
          rcases Option.bind_eq_some.mp h with ⟨c', _, hc⟩
          simp [jsWrite] at hc
          exact ⟨_, hc.symm⟩
      | some w =>
          rw [hr] at h
          by_cases hw : w.truthy = true
          · simp only [hw, if_true] at h
            rcases Option.bind_eq_some.mp h with ⟨c', _, hc⟩
            simp [jsWrite] at hc
            exact ⟨_, hc.symm⟩
          · simp only [hw, if_false] at h
            rcases Option.bind_eq_some.mp h with ⟨c', _, hc⟩
            simp [jsWrite] at hc
            exact ⟨_, hc.symm⟩

lemma foldl_insert_none (flat : List (String × Scalar)) :
    flat.foldl
      (fun acc kv => acc.bind (fun root => insertSegs root (splitDots kv.1) kv.2))
      none = none := by
  induction flat with
  | nil => rfl
  | cons hd t ih => simpa using ih

lemma foldl_insert_uobj (flat : List (String × Scalar)) :
    ∀ (fs : List (String × UVal)) (v : UVal),
      flat.foldl
        (fun acc kv => acc.bind (fun root => insertSegs root (splitDots kv.1) kv.2))
        (some (.uobj fs)) = some v → ∃ fs', v = .uobj fs' := by
  induction flat with
  | nil =>
      intro fs v h
      simp at h
      exact ⟨fs, h.symm⟩
  | cons hd t ih =>
      intro fs v h
      simp only [List.foldl_cons, Option.some_bind] at h
      cases hs : insertSegs (.uobj fs) (splitDots hd.1) hd.2 with
      | none =>
          rw [hs] at h
          rw [foldl_insert_none] at h
          exact absurd h (by simp)
      | some w =>
          rw [hs] at h
          rcases insertSegs_uobj_root fs _ _ w hs with ⟨fs₁, rfl⟩
          exact ih fs₁ v h

/-- Claim C10: whenever `unflattenObject` returns a value, that value is a
Mapping at the top level (the accumulating root starts as `{}` and every
write keeps it an object), never a Sequence — even when every flat key's
first segment is numeric, as in `unflattenObject({'0.a': 1})`, whose root is
a Mapping with key `"0"`. -/
theorem C10_root_is_mapping :
    (∀ (flat : List (String × Scalar)) (v : UVal),
      unflattenObject flat = some v → ∃ fs, v = .uobj fs) ∧
    unflattenObject [("0.a", .num 1)] =
      some (.uobj [("0", .uobj [("a", .leaf (.num 1))])]) := by
  refine ⟨?_, rfl⟩
  intro flat v h
  exact foldl_insert_uobj flat [] v h

/-- Witness for `C10_root_is_mapping` at the numeric-first-segment input. -/
theorem C10_root_is_mapping_witness :
    ∃ fs, (UVal.uobj [("0", .uobj [("a", .leaf (.num 1))])]) = .uobj fs :=
  C10_root_is_mapping.1 [("0.a", .num 1)] _ C10_root_is_mapping.2

/-!  Round trip (claim C5): flattening `unflattenObject`'s result with the
walker.  The same `walkThrough` source is applied to the unflattener's value
universe: `Object.keys` on an array enumerates the present element slots in
index order (holes are skipped) and then the string properties in insertion
order. -/

/-- JavaScript `typeof v === 'object'` over the unflattener's value universe. -/
def UVal.typeofObjectU : UVal → Bool
  | .leaf .null => true
  | .leaf _ => false
  | .uobj _ => true
  | .uarr _ _ => true

/-- Scalar payload of a non-object value (never applied to `null`). -/
def UVal.asScalarU : UVal → Scalar
  | .leaf s => s
  | _ => .null

mutual

/-- The source's `walk` generator applied to an unflattener value. -/
def walkTreeU : UVal → List String → Option (List (List String × Scalar))
  | .leaf .null, _ => none
  | .leaf _, _ => some []
  | .uarr es ps, prev =>
      (walkElemsU es 0 prev).bind fun l1 =>
        (walkFieldsU ps prev).map fun l2 => l1 ++ l2
  | .uobj fs, prev => walkFieldsU fs prev

/-- Walk over array element slots; a hole is not an own property. -/
def walkElemsU : List (Option UVal) → Nat → List String → Option (List (List String × Scalar))
  | [], _, _ => some []
  | none :: t, i, prev => walkElemsU t (i + 1) prev
  | some v :: t, i, prev =>
      (if v.typeofObjectU then walkTreeU v (prev ++ [natToStr i])
       else some [(prev ++ [natToStr i], v.asScalarU)]).bind fun hd =>
        (walkElemsU t (i + 1) prev).map fun tl => hd ++ tl

/-- Walk over object fields or array string properties. -/
def walkFieldsU : List (String × UVal) → List String → Option (List (List String × Scalar))
  | [], _ => some []
  | (k, v) :: t, prev =>
      (if v.typeofObjectU then walkTreeU v (prev ++ [k])
       else some [(prev ++ [k], v.asScalarU)]).bind fun hd =>
        (walkFieldsU t prev).map fun tl => hd ++ tl

end

/-- The source's `walkThrough` on an unflattener value. -/
def walkThroughU (v : UVal) : Option (List (List String × Scalar)) :=
  walkTreeU v []

/-- JavaScript `Array.prototype.join('.')` on a path. -/
def joinDots : List String → String
  | [] => ""
  | [s] => s
  | s :: t => s ++ "." ++ joinDots t

/-- Flatten of the claim: collect the walker's `(path, value)` pairs over the
unflattened tree, joining each path with `.` (a thrown TypeError is `none`). -/
def flattenU (flat : List (String × Scalar)) : Option (List (String × Scalar)) :=
  (unflattenObject flat).bind fun v =>
    (walkThroughU v).map (List.map (fun p => (joinDots p.1, p.2)))

/-- Claim C5: the flat mapping `F = {a: null}` nests to the tree `{a: null}`
with no empty containers and no key collisions, yet the round trip crashes:
the walker recurses into the null leaf (`typeof null === 'object'`) and
`Object.keys(null)` throws, so `flatten(unflattenObject(F))` is not `F` (it
is no value at all).  On a null-free flat mapping such as
`{'a.b.0': 8, d: 3}` the round trip does return `F`. -/
theorem C5_roundtrip_crashes_on_null :
    flattenU [("a", .null)] = none ∧
    flattenU [("a.b.0", .num 8), ("d", .num 3)] =
      some [("a.b.0", .num 8), ("d", .num 3)] := by
  constructor
  · simp [flattenU, unflattenObject, insertSegs, jsRead, jsWrite, splitDots,
      splitDotAux, lookupField, walkThroughU, walkTreeU, walkFieldsU,
      UVal.typeofObjectU]
  · have hu : unflattenObject [("a.b.0", .num 8), ("d", .num 3)] =
        some (.uobj [("a", .uobj [("b", .uarr [some (.leaf (.num 8))] [])]),
                     ("d", .leaf (.num 3))]) := by rfl
    rw [flattenU, hu]
    simp [walkThroughU, walkTreeU, walkFieldsU, walkElemsU,
      UVal.typeofObjectU, UVal.asScalarU, natToStr, natToChars, digitChar,
      joinDots]

/-!  Cycle-safe serializer (`stringifyCircularJSON`).  The WeakSet tracks
*object identities*, so the embedding uses an explicit heap: containers live
in a store and are referenced by index; a cyclic or shared structure is a
store whose nodes reference each other.  `JSON.stringify` with the source's
replacer omits an object key whose replacer result is `undefined`, but emits
the text `null` for such an array slot (ECMA-404 / ECMA-262 SerializeJSONArray
semantics).  Recursion is fuel-structural: fuel is consumed once per descent
into an unvisited container, so any fuel larger than the store never runs
out; theorems quantifying over inputs take traversal success as hypothesis. -/

/-- A JavaScript value: a scalar or a reference to a heap node. -/
inductive JSVal where
  | scalar (s : Scalar) : JSVal
  | ref (i : Nat) : JSVal
deriving Repr, DecidableEq

/-- A heap node: an array of values or an object of fields. -/
inductive Node where
  | narr (es : List JSVal) : Node
  | nobj (fs : List (String × JSVal)) : Node
deriving Repr, DecidableEq

/-- The heap: node `i` is the container with identity `i`. -/
abbrev Store := List Node

/-- Hexadecimal digit character (lower case). -/
def hexDigitChar (n : Nat) : Char :=
  if n < 10 then digitChar n else Char.ofNat ('a'.toNat + (n - 10))

/-- JSON string escaping of one character (ASCII control range; the claims'
strings need no astral/UTF-16 cases). -/
def escapeChar (c : Char) : List Char :=
  if c = '"' then ['\\', '"']
  else if c = '\\' then ['\\', '\\']
  else if c = '\x08' then ['\\', 'b']
  else if c = '\x0c' then ['\\', 'f']
  else if c = '\n' then ['\\', 'n']
  else if c = '\r' then ['\\', 'r']
  else if c = '\t' then ['\\', 't']
  else if c.toNat < 32 then
    ['\\', 'u', '0', '0', hexDigitChar (c.toNat / 16), hexDigitChar (c.toNat % 16)]
  else [c]

/-- JSON quoting of a string. -/
def quoteJSON (s : String) : String :=
  String.mk ('"' :: (s.toList.map escapeChar).flatten ++ ['"'])

/-- Decimal rendering of an integer, as JSON renders numbers. -/
def intToStr (i : Int) : String :=
  if i < 0 then "-" ++ natToStr i.natAbs else natToStr i.natAbs

/-- JSON text of a scalar. -/
def renderScalar : Scalar → String
  | .null => "null"
  | .bool true => "true"
  | .bool false => "false"
  | .num n => intToStr n
  | .str s => quoteJSON s

/-- Comma-joined member texts. -/
def joinComma : List String → String
  | [] => ""
  | [s] => s
  | s :: t => s ++ "," ++ joinComma t

mutual

/-- The step `SerializeJSONProperty` under the source's replacer: a scalar serializes to
its JSON text; a reference whose identity is already in the visited list
makes the replacer return `undefined` (`(none, seen)`); otherwise the
identity is marked visited and the node's members are serialized.  The outer
`Option` is failure (dangling reference — impossible in JavaScript — or
exhausted fuel); the inner `Option String` is "undefined" vs the member text;
the list threads the WeakSet, which the call mutates across all members.
-/
def serVal (st : Store) : Nat → List Nat → JSVal → Option (Option String × List Nat)
  | _, seen, .scalar s => some (some (renderScalar s), seen)
  | fuel, seen, .ref i =>
      if i ∈ seen then some (none, seen)
      else
        match st[i]? with
        | none => none
        | some nd =>
          match fuel with
          | 0 => none
          | fuel' + 1 =>
            match nd with
            | .narr es =>
                (serElems st fuel' (seen ++ [i]) es).map fun pr =>
                  (some ("[" ++ joinComma pr.1 ++ "]"), pr.2)
            | .nobj fs =>
                (serFields st fuel' (seen ++ [i]) fs).map fun pr =>
                  (some ("\x7b" ++ joinComma pr.1 ++ "\x7d"), pr.2)
termination_by fuel _ v => (fuel, sizeOf v)

/-- Array members: an `undefined` replacer result serializes as the text
`null` in its slot. -/
def serElems (st : Store) : Nat → List Nat → List JSVal → Option (List String × List Nat)
  | _, seen, [] => some ([], seen)
  | fuel, seen, v :: t =>
      (serVal st fuel seen v).bind fun pr =>
        (serElems st fuel pr.2 t).map fun pr2 =>
          ((pr.1.getD "null") :: pr2.1, pr2.2)
termination_by fuel _ es => (fuel, sizeOf es)

/-- Object members: an `undefined` replacer result drops the key entirely. -/
def serFields (st : Store) : Nat → List Nat → List (String × JSVal) → Option (List String × List Nat)
  | _, seen, [] => some ([], seen)
  | fuel, seen, (k, v) :: t =>
      (serVal st fuel seen v).bind fun pr =>
        (serFields st fuel pr.2 t).map fun pr2 =>
          ((match pr.1 with
            | none => pr2.1
            | some sv => (quoteJSON k ++ ":" ++ sv) :: pr2.1), pr2.2)
termination_by fuel _ fs => (fuel, sizeOf fs)

end

/-- The source's `stringifyCircularJSON` on a heap value: fresh WeakSet, then
`JSON.stringify` with the replacer; a root-level `undefined` result cannot
arise from an empty visited set. -/
def stringifyCircularJSON (st : Store) (fuel : Nat) (v : JSVal) : Option String :=
  (serVal st fuel [] v).bind fun pr => pr.1

mutual

/-- Standard tree serialization (ordinary `JSON.stringify` with no replacer),
stated from the spec's words as the reference for the claim's
refinement/equivalence part. -/
def plainVal (st : Store) : Nat → JSVal → Option String
  | _, .scalar s => some (renderScalar s)
  | fuel, .ref i =>
      match st[i]? with
      | none => none
      | some nd =>
        match fuel with
        | 0 => none
        | fuel' + 1 =>
          match nd with
          | .narr es => (plainElems st fuel' es).map fun parts =>
              "[" ++ joinComma parts ++ "]"
          | .nobj fs => (plainFields st fuel' fs).map fun parts =>
              "\x7b" ++ joinComma parts ++ "\x7d"
termination_by fuel v => (fuel, sizeOf v)

/-- Standard serialization of array members. -/
def plainElems (st : Store) : Nat → List JSVal → Option (List String)
  | _, [] => some []
  | fuel, v :: t =>
      (plainVal st fuel v).bind fun s =>
        (plainElems st fuel t).map fun parts => s :: parts
termination_by fuel es => (fuel, sizeOf es)

/-- Standard serialization of object members. -/
def plainFields (st : Store) : Nat → List (String × JSVal) → Option (List String)
  | _, [] => some []
  | fuel, (k, v) :: t =>
      (plainVal st fuel v).bind fun s =>
        (plainFields st fuel t).map fun parts => (quoteJSON k ++ ":" ++ s) :: parts
termination_by fuel fs => (fuel, sizeOf fs)

end

mutual

/-- Container identities in depth-first traversal order (with repetitions):
the traversal succeeds exactly when the plain serialization does, and its
result lists every container occurrence. -/
def idsVal (st : Store) : Nat → JSVal → Option (List Nat)
  | _, .scalar _ => some []
  | fuel, .ref i =>
      match st[i]? with
      | none => none
      | some nd =>
        match fuel with
        | 0 => none
        | fuel' + 1 =>
          match nd with
          | .narr es => (idsElems st fuel' es).map fun l => i :: l
          | .nobj fs => (idsFields st fuel' fs).map fun l => i :: l
termination_by fuel v => (fuel, sizeOf v)

/-- Identities of array members. -/
def idsElems (st : Store) : Nat → List JSVal → Option (List Nat)
  | _, [] => some []
  | fuel, v :: t =>
      (idsVal st fuel v).bind fun l1 =>
        (idsElems st fuel t).map fun l2 => l1 ++ l2
termination_by fuel es => (fuel, sizeOf es)

/-- Identities of object members. -/
def idsFields (st : Store) : Nat → List (String × JSVal) → Option (List Nat)
  | _, [] => some []
  | fuel, (_, v) :: t =>
      (idsVal st fuel v).bind fun l1 =>
        (idsFields st fuel t).map fun l2 => l1 ++ l2
termination_by fuel fs => (fuel, sizeOf fs)

end

/-- The spec's serializer example heap: `o = {n: 42}; o.self = o`. -/
def selfObjStore : Store := [.nobj [("n", .scalar (.num 42)), ("self", .ref 0)]]

/-- A cycle through a Sequence slot: `a = [{n:42}]; a.push(a)`. -/
def cycArrStore : Store := [.narr [.ref 1, .ref 0], .nobj [("n", .scalar (.num 42))]]

/-- A diamond through Mapping keys: `d = {}; o = {x: d, y: d}`. -/
def diamondObjStore : Store := [.nobj [("x", .ref 1), ("y", .ref 1)], .nobj []]

/-- A diamond through Sequence slots: `d = {}; a = [d, d]`. -/
def diamondArrStore : Store := [.narr [.ref 1, .ref 1], .nobj []]

/-- Claim C2 counterexample: in `a = [{n:42}]; a.push(a)` the already-visited
container (the root array, reached again through its own second slot) sits in
a *Sequence* slot.  The claim says that slot is omitted entirely and the
parent ends up with one fewer member (`'[{"n":42}]'`), but the code emits the
placeholder text `null` in the slot: `'[{"n":42},null]'`. -/
theorem C2_counterexample :
    stringifyCircularJSON cycArrStore 3 (.ref 0) =
      some "[\x7b\"n\":42\x7d,null]" ∧
    ("[\x7b\"n\":42\x7d,null]" : String) ≠ "[\x7b\"n\":42\x7d]" := by
  constructor
  · simp [stringifyCircularJSON, serVal, serElems, serFields, cycArrStore,
      renderScalar, intToStr, natToStr, natToChars, digitChar, quoteJSON,
      escapeChar, joinComma]
  · decide

/-- Claim C2 as amended: when a container whose identity was already visited
is encountered again, the replacer returns `undefined`; for a *Mapping* key
this omits the key entirely (the parent has one fewer member), while for a
*Sequence* slot the text `null` is emitted in place; the first occurrence is
kept, no error is raised, and the visited set is left unchanged; in
particular, for `o = {n: 42}` with `o.self = o`,
`stringifyCircularJSON(o) = '{"n":42}'`. -/
theorem C2_visited_handling (st : Store) (fuel : Nat) (seen : List Nat)
    (k : String) (i : Nat) (h : i ∈ seen) :
    (∀ t : List (String × JSVal),
      serFields st fuel seen ((k, .ref i) :: t) = serFields st fuel seen t) ∧
    (∀ t : List JSVal,
      serElems st fuel seen (.ref i :: t) =
        (serElems st fuel seen t).map fun pr => ("null" :: pr.1, pr.2)) ∧
    stringifyCircularJSON selfObjStore 3 (.ref 0) = some "\x7b\"n\":42\x7d" := by
  refine ⟨?_, ?_, ?_⟩
  · intro t
    simp [serFields, serVal, h]
  · intro t
    simp [serElems, serVal, h]
  · simp [stringifyCircularJSON, serVal, serElems, serFields, selfObjStore,
      renderScalar, intToStr, natToStr, natToChars, digitChar, quoteJSON,
      escapeChar, joinComma]

/-- Witness for `C2_visited_handling`: a visited identity in a Mapping key is
dropped from the member list. -/
theorem C2_visited_handling_witness :
    serFields [] 1 [0] [("k", .ref 0)] = serFields [] 1 [0] [] :=
  (C2_visited_handling [] 1 [0] "k" 0 (by decide)).1 []

/-- Claim C9 counterexample: the same non-cyclic container in two *Sequence*
sibling slots (`d = {}; a = [d, d]`).  The claim says only the first
occurrence survives and the second is omitted (`'[{}]'`), but the code emits
`null` in the second slot: `'[{},null]'`. -/
theorem C9_counterexample :
    stringifyCircularJSON diamondArrStore 3 (.ref 0) = some "[\x7b\x7d,null]" ∧
    ("[\x7b\x7d,null]" : String) ≠ "[\x7b\x7d]" := by
  constructor
  · simp [stringifyCircularJSON, serVal, serElems, serFields, diamondArrStore,
      joinComma]
  · decide

/-- Induction statement for values: under a duplicate-free traversal whose
identities avoid the visited set, the replacer serialization agrees with the
standard one and appends exactly the traversed identities. -/
def SerP (st : Store) (fuel : Nat) : Prop :=
  ∀ (v : JSVal) (seen ids : List Nat),
    idsVal st fuel v = some ids → ids.Nodup → (∀ j ∈ ids, j ∉ seen) →
    ∃ s, plainVal st fuel v = some s ∧
      serVal st fuel seen v = some (some s, seen ++ ids)

/-- Induction statement for array members. -/
def SerQ (st : Store) (fuel : Nat) : Prop :=
  ∀ (es : List JSVal) (seen ids : List Nat),
    idsElems st fuel es = some ids → ids.Nodup → (∀ j ∈ ids, j ∉ seen) →
    ∃ parts, plainElems st fuel es = some parts ∧
      serElems st fuel seen es = some (parts, seen ++ ids)

/-- Induction statement for object members. -/
def SerR (st : Store) (fuel : Nat) : Prop :=
  ∀ (fs : List (String × JSVal)) (seen ids : List Nat),
    idsFields st fuel fs = some ids → ids.Nodup → (∀ j ∈ ids, j ∉ seen) →
    ∃ parts, plainFields st fuel fs = some parts ∧
      serFields st fuel seen fs = some (parts, seen ++ ids)

lemma serP_zero (st : Store) : SerP st 0 := by
  intro v seen ids h1 h2 h3
  match v with
  | .scalar s0 =>
      simp only [idsVal, Option.some.injEq] at h1
      subst h1
      exact ⟨renderScalar s0, by simp [plainVal], by simp [serVal]⟩
  | .ref i =>
      simp only [idsVal] at h1
      cases hst : st[i]? with
      | none => rw [hst] at h1; simp at h1
      | some nd => rw [hst] at h1; simp at h1

lemma serQ_of_P (st : Store) (fuel : Nat) (hP : SerP st fuel) : SerQ st fuel := by
  intro es
  induction es with
  | nil =>
      intro seen ids h1 _ _
      simp only [idsElems, Option.some.injEq] at h1
      subst h1
      exact ⟨[], by simp [plainElems], by simp [serElems]⟩
  | cons v t ih =>
      intro seen ids h1 h2 h3
      simp only [idsElems] at h1
      rcases Option.bind_eq_some.mp h1 with ⟨l1, hl1, hmap⟩
      rcases Option.map_eq_some'.mp hmap with ⟨l2, hl2, heq⟩
      subst heq
      rw [List.nodup_append] at h2
      obtain ⟨h2a, h2b, hdisj⟩ := h2
      have h3a : ∀ j ∈ l1, j ∉ seen := fun j hj => h3 j (by simp [hj])
      obtain ⟨s, hps, hss⟩ := hP v seen l1 hl1 h2a h3a
      have h3b : ∀ j ∈ l2, j ∉ seen ++ l1 := by
        intro j hj
        simp only [List.mem_append]
        push_neg
        exact ⟨h3 j (by simp [hj]), fun hc => absurd hj (hdisj hc)⟩
      obtain ⟨parts, hpt, hst2⟩ := ih (seen ++ l1) l2 hl2 h2b h3b
      refine ⟨s :: parts, ?_, ?_⟩
      · simp [plainElems, hps, hpt]
      · simp [serElems, hss, hst2, List.append_assoc]

lemma serR_of_P (st : Store) (fuel : Nat) (hP : SerP st fuel) : SerR st fuel := by
  intro fs
  induction fs with
  | nil =>
      intro seen ids h1 _ _
      simp only [idsFields, Option.some.injEq] at h1
      subst h1
      exact ⟨[], by simp [plainFields], by simp [serFields]⟩
  | cons kv t ih =>
      intro seen ids h1 h2 h3
      match kv with
      | (k, v) =>
        simp only [idsFields] at h1
        rcases Option.bind_eq_some.mp h1 with ⟨l1, hl1, hmap⟩
        rcases Option.map_eq_some'.mp hmap with ⟨l2, hl2, heq⟩
        subst heq
        rw [List.nodup_append] at h2
        obtain ⟨h2a, h2b, hdisj⟩ := h2
        have h3a : ∀ j ∈ l1, j ∉ seen := fun j hj => h3 j (by simp [hj])
        obtain ⟨s, hps, hss⟩ := hP v seen l1 hl1 h2a h3a
        have h3b : ∀ j ∈ l2, j ∉ seen ++ l1 := by
          intro j hj
          simp only [List.mem_append]
          push_neg
          exact ⟨h3 j (by simp [hj]), fun hc => absurd hj (hdisj hc)⟩
        obtain ⟨parts, hpt, hst2⟩ := ih (seen ++ l1) l2 hl2 h2b h3b
        refine ⟨(quoteJSON k ++ ":" ++ s) :: parts, ?_, ?_⟩
        · simp [plainFields, hps, hpt]
        · simp [serFields, hss, hst2, List.append_assoc]

lemma serP_succ (st : Store) (fuel : Nat) (hQ : SerQ st fuel)
    (hR : SerR st fuel) : SerP st (fuel + 1) := by
  intro v seen ids h1 h2 h3
  match v with
  | .scalar s0 =>
      simp only [idsVal, Option.some.injEq] at h1
      subst h1
      exact ⟨renderScalar s0, by simp [plainVal], by simp [serVal]⟩
  | .ref i =>
      simp only [idsVal] at h1
      cases hst : st[i]? with
      | none => rw [hst] at h1; simp at h1
      | some nd =>
          rw [hst] at h1
          have hi_seen : i ∉ seen := by
            match nd with
            | .narr es =>
                simp only at h1
                rcases Option.map_eq_some'.mp h1 with ⟨l, _, heq⟩
                exact h3 i (by rw [← heq]; simp)
            | .nobj fs =>
                simp only at h1
                rcases Option.map_eq_some'.mp h1 with ⟨l, _, heq⟩
                exact h3 i (by rw [← heq]; simp)
          match nd with
          | .narr es =>
              simp only at h1
              rcases Option.map_eq_some'.mp h1 with ⟨l, hl, heq⟩
              subst heq
              rw [List.nodup_cons] at h2
              obtain ⟨hil, hl2⟩ := h2
              have h3' : ∀ j ∈ l, j ∉ seen ++ [i] := by
                intro j hj
                simp only [List.mem_append, List.mem_singleton]
                push_neg
                refine ⟨h3 j (by simp [hj]), ?_⟩
                intro e
                exact hil (e ▸ hj)
              obtain ⟨parts, hpt, hst2⟩ := hQ es (seen ++ [i]) l hl hl2 h3'
              refine ⟨"[" ++ joinComma parts ++ "]", ?_, ?_⟩
              · simp [plainVal, hst, hpt]
              · simp [serVal, hi_seen, hst, hst2]
          | .nobj fs =>
              simp only at h1
              rcases Option.map_eq_some'.mp h1 with ⟨l, hl, heq⟩
              subst heq
              rw [List.nodup_cons] at h2
              obtain ⟨hil, hl2⟩ := h2
              have h3' : ∀ j ∈ l, j ∉ seen ++ [i] := by
                intro j hj
                simp only [List.mem_append, List.mem_singleton]
                push_neg
                refine ⟨h3 j (by simp [hj]), ?_⟩
                intro e
                exact hil (e ▸ hj)
              obtain ⟨parts, hpt, hst2⟩ := hR fs (seen ++ [i]) l hl hl2 h3'
              refine ⟨"\x7b" ++ joinComma parts ++ "\x7d", ?_, ?_⟩
              · simp [plainVal, hst, hpt]
              · simp [serVal, hi_seen, hst, hst2]

lemma serPQR (st : Store) : ∀ fuel, SerP st fuel ∧ SerQ st fuel ∧ SerR st fuel := by
  intro fuel
  induction fuel with
  | zero =>
      exact ⟨serP_zero st, serQ_of_P st 0 (serP_zero st),
        serR_of_P st 0 (serP_zero st)⟩
  | succ f ih =>
      have hP := serP_succ st f ih.2.1 ih.2.2
      exact ⟨hP, serQ_of_P st (f + 1) hP, serR_of_P st (f + 1) hP⟩

/-- Claim C9 as amended: on a heap value whose traversal visits no container
identity twice (acyclic, no sharing), `stringifyCircularJSON` returns exactly
the standard tree-serialization text; when the same non-cyclic container
appears in two sibling positions, the first occurrence survives and the
second is *omitted when the parent is a Mapping* but *serialized as the text
`null` when the parent is a Sequence slot*, shown on the two diamond
heaps. -/
theorem C9_circ_eq_plain (st : Store) (fuel : Nat) (v : JSVal)
    (ids : List Nat) (s : String)
    (h1 : idsVal st fuel v = some ids) (h2 : ids.Nodup)
    (h3 : plainVal st fuel v = some s) :
    stringifyCircularJSON st fuel v = some s ∧
    stringifyCircularJSON diamondObjStore 3 (.ref 0) =
      some "\x7b\"x\":\x7b\x7d\x7d" ∧
    stringifyCircularJSON diamondArrStore 3 (.ref 0) = some "[\x7b\x7d,null]" := by
  refine ⟨?_, ?_, ?_⟩
  · obtain ⟨s', hp, hs⟩ := (serPQR st fuel).1 v [] ids h1 h2 (by simp)
    rw [h3, Option.some.injEq] at hp
    subst hp
    simp [stringifyCircularJSON, hs]
  · simp [stringifyCircularJSON, serVal, serElems, serFields, diamondObjStore,
      quoteJSON, escapeChar, joinComma]
  · simp [stringifyCircularJSON, serVal, serElems, serFields, diamondArrStore,
      joinComma]

/-- Witness for `C9_circ_eq_plain` on the acyclic heap `{k: 1}`. -/
theorem C9_circ_eq_plain_witness :
    stringifyCircularJSON [Node.nobj [("k", .scalar (.num 1))]] 2 (.ref 0) =
      some "\x7b\"k\":1\x7d" :=
  (C9_circ_eq_plain [Node.nobj [("k", .scalar (.num 1))]] 2 (.ref 0) [0]
    "\x7b\"k\":1\x7d"
    (by simp [idsVal, idsFields])
    (by simp)
    (by simp [plainVal, plainFields, renderScalar, intToStr, natToStr,
      natToChars, digitChar, quoteJSON, escapeChar, joinComma])).1

end JSU
